import Mathlib

/-!
Shallow embedding of `src/append_only_data.rs` (safe-nd): the append-only
data aggregate with causally-anchored ownership and permission histories,
two-tier public/private permission evaluation, relative/absolute index
resolution and shell (history snapshot) reconstruction.

Rust `u64`/`usize` counts are modelled as `Nat` (they are lengths and
indices of in-memory vectors, never overflowed by the code), `Vec<u8>`
keys/values as `List Nat`, `BTreeMap` as an association list queried by
`btreeGet` (only `get` is used by the modelled code), `BTreeSet`
membership as list membership, and fallible operations return
`Except Error`, with mutation modelled by returning the updated aggregate.
-/

namespace SafeND

/-- Opaque, totally ordered principal identity (authentication out of scope). -/
abbrev PublicKey := Nat

/-- Opaque 256-bit network name, only compared for equality here. -/
abbrev XorName := Nat

inductive User where
  | anyone
  | key (pk : PublicKey)
deriving DecidableEq

inductive Action where
  | read
  | append
  | managePermissions
deriving DecidableEq

inductive Index where
  | fromStart (i : Nat)
  | fromEnd (i : Nat)
deriving DecidableEq

structure Entry where
  key : List Nat
  value : List Nat
deriving DecidableEq

inductive Error where
  | AccessDenied
  | InvalidPermissions
  | InvalidOwners
  | InvalidSuccessor (expected : Nat)
  | InvalidOwnersSuccessor (expected : Nat)
  | InvalidPermissionsSuccessor (expected : Nat)
  | DuplicateEntryKeys
  | KeysExist (conflicts : List Entry)
  | NoSuchEntry
  | NoSuchData
deriving DecidableEq

/-- Models `BTreeMap::get` on the association-list model of the map. -/
def btreeGet {α β : Type} [DecidableEq α] (k : α) : List (α × β) → Option β
  | [] => none
  | kv :: rest => if kv.1 = k then some kv.2 else btreeGet k rest

structure UnpubPermissionSet where
  read : Bool
  append : Bool
  manage_permissions : Bool
deriving DecidableEq

def UnpubPermissionSet.is_allowed (s : UnpubPermissionSet) : Action → Bool
  | Action.read => s.read
  | Action.append => s.append
  | Action.managePermissions => s.manage_permissions

structure PubPermissionSet where
  append : Option Bool
  manage_permissions : Option Bool
deriving DecidableEq

def PubPermissionSet.is_allowed (s : PubPermissionSet) : Action → Option Bool
  | Action.read => some true
  | Action.append => s.append
  | Action.managePermissions => s.manage_permissions

structure UnpubPermissions where
  permissions : List (PublicKey × UnpubPermissionSet)
  entries_index : Nat
  owners_index : Nat
deriving DecidableEq

def UnpubPermissions.is_action_allowed (p : UnpubPermissions) (requester : PublicKey)
    (action : Action) : Except Error Unit :=
  match btreeGet requester p.permissions with
  | some perms => if perms.is_allowed action then Except.ok () else Except.error Error.AccessDenied
  | none => Except.error Error.InvalidPermissions

structure PubPermissions where
  permissions : List (User × PubPermissionSet)
  entries_index : Nat
  owners_index : Nat
deriving DecidableEq

def PubPermissions.is_action_allowed_by_user (p : PubPermissions) (user : User)
    (action : Action) : Option Bool :=
  (btreeGet user p.permissions).bind fun perms => perms.is_allowed action

def PubPermissions.is_action_allowed (p : PubPermissions) (requester : PublicKey)
    (action : Action) : Except Error Unit :=
  match (p.is_action_allowed_by_user (User.key requester) action).orElse
      (fun _ => p.is_action_allowed_by_user User.anyone action) with
  | some true => Except.ok ()
  | some false => Except.error Error.AccessDenied
  | none => Except.error Error.InvalidPermissions

/-- The `Perm` trait: the interface shared by the two permission-snapshot flavours. -/
class Perm (P : Type) where
  is_action_allowed : P → PublicKey → Action → Except Error Unit
  entries_index : P → Nat
  owners_index : P → Nat

instance : Perm UnpubPermissions where
  is_action_allowed := UnpubPermissions.is_action_allowed
  entries_index := UnpubPermissions.entries_index
  owners_index := UnpubPermissions.owners_index

instance : Perm PubPermissions where
  is_action_allowed := PubPermissions.is_action_allowed
  entries_index := PubPermissions.entries_index
  owners_index := PubPermissions.owners_index

structure Owner where
  public_key : PublicKey
  entries_index : Nat
  permissions_index : Nat
deriving DecidableEq

inductive Kind where
  | PubSeq
  | PubUnseq
  | UnpubSeq
  | UnpubUnseq
deriving DecidableEq

def Kind.is_pub (k : Kind) : Bool :=
  k = Kind.PubSeq ∨ k = Kind.PubUnseq

def Kind.is_unpub (k : Kind) : Bool :=
  !k.is_pub

inductive Address where
  | PubSeq (name : XorName) (tag : Nat)
  | PubUnseq (name : XorName) (tag : Nat)
  | UnpubSeq (name : XorName) (tag : Nat)
  | UnpubUnseq (name : XorName) (tag : Nat)
deriving DecidableEq

def Address.kind : Address → Kind
  | Address.PubSeq _ _ => Kind.PubSeq
  | Address.PubUnseq _ _ => Kind.PubUnseq
  | Address.UnpubSeq _ _ => Kind.UnpubSeq
  | Address.UnpubUnseq _ _ => Kind.UnpubUnseq

def Address.is_pub (a : Address) : Bool :=
  a.kind.is_pub

/-- Models `u64::checked_sub` on `Nat`. -/
def checked_sub (a b : Nat) : Option Nat :=
  if b ≤ a then some (a - b) else none

def to_absolute_index (index : Index) (count : Nat) : Option Nat :=
  match index with
  | Index.fromStart i => if i ≤ count then some i else none
  | Index.fromEnd i => checked_sub count i

def to_absolute_range (start stop : Index) (count : Nat) : Option (Nat × Nat) :=
  match to_absolute_index start count, to_absolute_index stop count with
  | some s, some e => if s ≤ e then some (s, e) else none
  | _, _ => none

def check_dup (data : List Entry) (entries : List Entry) : Except Error Unit :=
  if (entries.map Entry.key).Nodup then
    if entries.any (fun e => decide (e.key ∈ data.map Entry.key)) then
      Except.error (Error.KeysExist (entries.filter fun e => decide (e.key ∈ data.map Entry.key)))
    else
      Except.ok ()
  else
    Except.error Error.DuplicateEntryKeys

structure AppendOnlyData (P : Type) where
  address : Address
  data : List Entry
  permissions : List P
  owners : List Owner
deriving DecidableEq

namespace AppendOnlyData

variable {P : Type} [Perm P]

def entries_index (d : AppendOnlyData P) : Nat :=
  d.data.length

def owners_index (d : AppendOnlyData P) : Nat :=
  d.owners.length

def permissions_index (d : AppendOnlyData P) : Nat :=
  d.permissions.length

/-- The method `fn permissions(&self, index)`: fetch the permission snapshot at an index
(renamed `permissions_at` because the field `permissions` holds the history itself). -/
def permissions_at (d : AppendOnlyData P) (index : Index) : Option P :=
  match to_absolute_index index d.permissions.length with
  | none => none
  | some i => d.permissions[i]?

def owner (d : AppendOnlyData P) (index : Index) : Option Owner :=
  match to_absolute_index index d.owners.length with
  | none => none
  | some i => d.owners[i]?

def append_permissions (d : AppendOnlyData P) (perms : P) (permissions_idx : Nat) :
    Except Error (AppendOnlyData P) :=
  if Perm.entries_index perms ≠ d.entries_index then
    Except.error (Error.InvalidSuccessor d.entries_index)
  else if Perm.owners_index perms ≠ d.owners_index then
    Except.error (Error.InvalidOwnersSuccessor d.owners_index)
  else if d.permissions_index ≠ permissions_idx then
    Except.error (Error.InvalidSuccessor d.permissions_index)
  else
    Except.ok { d with permissions := d.permissions ++ [perms] }

def append_owner (d : AppendOnlyData P) (ow : Owner) (index : Nat) :
    Except Error (AppendOnlyData P) :=
  if ow.entries_index ≠ d.entries_index then
    Except.error (Error.InvalidSuccessor d.entries_index)
  else if ow.permissions_index ≠ d.permissions_index then
    Except.error (Error.InvalidPermissionsSuccessor d.permissions_index)
  else if d.owners_index ≠ index then
    Except.error (Error.InvalidSuccessor d.owners_index)
  else
    Except.ok { d with owners := d.owners ++ [ow] }

def check_permission (d : AppendOnlyData P) (requester : PublicKey) (action : Action) :
    Except Error Unit :=
  match d.owner (Index.fromEnd 1) with
  | none => Except.error Error.InvalidOwners
  | some ow =>
    if ow.public_key = requester then
      Except.ok ()
    else
      match d.permissions_at (Index.fromEnd 1) with
      | none => Except.error Error.InvalidPermissions
      | some perms => Perm.is_action_allowed perms requester action

def check_is_last_owner (d : AppendOnlyData P) (requester : PublicKey) : Except Error Unit :=
  match d.owner (Index.fromEnd 1) with
  | none => Except.error Error.InvalidOwners
  | some ow =>
    if ow.public_key = requester then Except.ok () else Except.error Error.AccessDenied

def shell (d : AppendOnlyData P) (entries_idx : Index) : Except Error (AppendOnlyData P) :=
  match to_absolute_index entries_idx d.entries_index with
  | none => Except.error Error.NoSuchEntry
  | some target =>
    Except.ok
      { address := d.address
        data := []
        permissions := d.permissions.filter fun perm => decide (Perm.entries_index perm ≤ target)
        owners := d.owners.filter fun ow => decide (ow.entries_index ≤ target) }

/-- Sequential-flavour `append(entries, last_entries_index)`. -/
def append (d : AppendOnlyData P) (entries : List Entry) (last_entries_index : Nat) :
    Except Error (AppendOnlyData P) :=
  match check_dup d.data entries with
  | Except.error e => Except.error e
  | Except.ok _ =>
    if last_entries_index ≠ d.data.length then
      Except.error (Error.InvalidSuccessor d.data.length)
    else
      Except.ok { d with data := d.data ++ entries }

/-- Unsequential-flavour `append(entries)`. -/
def append_unseq (d : AppendOnlyData P) (entries : List Entry) :
    Except Error (AppendOnlyData P) :=
  match check_dup d.data entries with
  | Except.error e => Except.error e
  | Except.ok _ => Except.ok { d with data := d.data ++ entries }

end AppendOnlyData

abbrev PubSeqAppendOnlyData := AppendOnlyData PubPermissions
abbrev PubUnseqAppendOnlyData := AppendOnlyData PubPermissions
abbrev UnpubSeqAppendOnlyData := AppendOnlyData UnpubPermissions
abbrev UnpubUnseqAppendOnlyData := AppendOnlyData UnpubPermissions

def PubSeqAppendOnlyData.new (name : XorName) (tag : Nat) : PubSeqAppendOnlyData :=
  { address := Address.PubSeq name tag, data := [], permissions := [], owners := [] }

def PubUnseqAppendOnlyData.new (name : XorName) (tag : Nat) : PubUnseqAppendOnlyData :=
  { address := Address.PubUnseq name tag, data := [], permissions := [], owners := [] }

def UnpubSeqAppendOnlyData.new (name : XorName) (tag : Nat) : UnpubSeqAppendOnlyData :=
  { address := Address.UnpubSeq name tag, data := [], permissions := [], owners := [] }

def UnpubUnseqAppendOnlyData.new (name : XorName) (tag : Nat) : UnpubUnseqAppendOnlyData :=
  { address := Address.UnpubUnseq name tag, data := [], permissions := [], owners := [] }

/-- The closed tagged union over the four flavour combinations. -/
inductive Data where
  | PubSeq (d : PubSeqAppendOnlyData)
  | PubUnseq (d : PubUnseqAppendOnlyData)
  | UnpubSeq (d : UnpubSeqAppendOnlyData)
  | UnpubUnseq (d : UnpubUnseqAppendOnlyData)
deriving DecidableEq

namespace Data

def check_permission (data : Data) (action : Action) (requester : PublicKey) :
    Except Error Unit :=
  match data, action with
  | Data.PubSeq _, Action.read => Except.ok ()
  | Data.PubUnseq _, Action.read => Except.ok ()
  | Data.PubSeq d, _ => d.check_permission requester action
  | Data.PubUnseq d, _ => d.check_permission requester action
  | Data.UnpubSeq d, _ => d.check_permission requester action
  | Data.UnpubUnseq d, _ => d.check_permission requester action

def address : Data → Address
  | Data.PubSeq d => d.address
  | Data.PubUnseq d => d.address
  | Data.UnpubSeq d => d.address
  | Data.UnpubUnseq d => d.address

def kind (data : Data) : Kind :=
  data.address.kind

def is_pub (data : Data) : Bool :=
  data.kind.is_pub

def owners_index : Data → Nat
  | Data.PubSeq d => d.owners_index
  | Data.PubUnseq d => d.owners_index
  | Data.UnpubSeq d => d.owners_index
  | Data.UnpubUnseq d => d.owners_index

end Data

/-- States reachable from a per-flavour `new(name, tag)` (an empty aggregate at some
address) by the public append operations: counted and uncounted entry appends,
`append_permissions` and `append_owner`. -/
inductive Reachable {P : Type} [Perm P] : AppendOnlyData P → Prop where
  | init (address : Address) :
      Reachable { address := address, data := [], permissions := [], owners := [] }
  | step_entries {d d' : AppendOnlyData P} (entries : List Entry) (idx : Nat) :
      Reachable d → d.append entries idx = Except.ok d' → Reachable d'
  | step_entries_unseq {d d' : AppendOnlyData P} (entries : List Entry) :
      Reachable d → d.append_unseq entries = Except.ok d' → Reachable d'
  | step_permissions {d d' : AppendOnlyData P} (perms : P) (idx : Nat) :
      Reachable d → d.append_permissions perms idx = Except.ok d' → Reachable d'
  | step_owner {d d' : AppendOnlyData P} (ow : Owner) (idx : Nat) :
      Reachable d → d.append_owner ow idx = Except.ok d' → Reachable d'

/-- A permission snapshot where the wildcard allows `Append` but denies
`ManagePermissions`, and principal 9 leaves `Append` unset but explicitly allows
`ManagePermissions` (the repository's own `check_pub_permission` test scenario). -/
def examplePubSnapshot : PubPermissions :=
  { permissions :=
      [(User.anyone, { append := some true, manage_permissions := some false }),
       (User.key 9, { append := none, manage_permissions := some true })]
    entries_index := 0
    owners_index := 1 }

def exampleOwner : Owner :=
  { public_key := 5, entries_index := 0, permissions_index := 0 }

def examplePubData : AppendOnlyData PubPermissions :=
  { address := Address.PubSeq 1 100
    data := []
    permissions := [examplePubSnapshot]
    owners := [exampleOwner] }

/-! ## Helper lemmas -/

/-- Resolving `FromEnd(1)` against a list's length and indexing yields the last element. -/
theorem owner_fromEnd_one {P : Type} [Perm P] (d : AppendOnlyData P) :
    d.owner (Index.fromEnd 1) = d.owners.getLast? := by
  unfold AppendOnlyData.owner to_absolute_index checked_sub
  cases h : d.owners with
  | nil => simp [h]
  | cons a l => simp [h, List.getLast?_eq_getElem?, Nat.succ_le_succ (Nat.zero_le l.length)]

theorem permissions_at_fromEnd_one {P : Type} [Perm P] (d : AppendOnlyData P) :
    d.permissions_at (Index.fromEnd 1) = d.permissions.getLast? := by
  unfold AppendOnlyData.permissions_at to_absolute_index checked_sub
  cases h : d.permissions with
  | nil => simp [h]
  | cons a l => simp [h, List.getLast?_eq_getElem?, Nat.succ_le_succ (Nat.zero_le l.length)]

theorem append_ok_inv {P : Type} [Perm P] {d d' : AppendOnlyData P}
    {entries : List Entry} {idx : Nat}
    (h : d.append entries idx = Except.ok d') :
    d' = { d with data := d.data ++ entries } := by
  unfold AppendOnlyData.append at h
  split at h
  · cases h
  · split at h
    · cases h
    · cases h
      rfl

theorem append_unseq_ok_inv {P : Type} [Perm P] {d d' : AppendOnlyData P}
    {entries : List Entry}
    (h : d.append_unseq entries = Except.ok d') :
    d' = { d with data := d.data ++ entries } := by
  unfold AppendOnlyData.append_unseq at h
  split at h
  · cases h
  · cases h
    rfl

theorem append_permissions_ok_inv {P : Type} [Perm P] {d d' : AppendOnlyData P}
    {perms : P} {idx : Nat}
    (h : d.append_permissions perms idx = Except.ok d') :
    Perm.entries_index perms = d.data.length ∧
    d' = { d with permissions := d.permissions ++ [perms] } := by
  unfold AppendOnlyData.append_permissions at h
  split_ifs at h with h1 h2 h3
  cases h
  exact ⟨not_ne_iff.mp h1, rfl⟩

theorem append_owner_ok_inv {P : Type} [Perm P] {d d' : AppendOnlyData P}
    {ow : Owner} {idx : Nat}
    (h : d.append_owner ow idx = Except.ok d') :
    ow.entries_index = d.data.length ∧
    d' = { d with owners := d.owners ++ [ow] } := by
  unfold AppendOnlyData.append_owner at h
  split_ifs at h with h1 h2 h3
  cases h
  exact ⟨not_ne_iff.mp h1, rfl⟩

/-- Filtering a list whose `f`-values are non-decreasing by `f x ≤ t` keeps a front
segment of the list. -/
theorem monotone_filter_le_front {α : Type} (f : α → Nat) (t : Nat)
    (l : List α) (hl : List.Pairwise (fun a b => f a ≤ f b) l) :
    ∃ rest, (l.filter fun x => decide (f x ≤ t)) ++ rest = l := by
  induction l with
  | nil => exact ⟨[], rfl⟩
  | cons x xs ih =>
    rw [List.pairwise_cons] at hl
    by_cases hx : f x ≤ t
    · obtain ⟨rest, hrest⟩ := ih hl.2
      exact ⟨rest, by simp [List.filter_cons, hx, hrest]⟩
    · refine ⟨x :: xs, ?_⟩
      have hnil : (xs.filter fun y => decide (f y ≤ t)) = [] := by
        rw [List.filter_eq_nil_iff]
        intro a ha
        simp only [decide_eq_true_eq]
        exact fun hle => hx (le_trans (hl.1 a ha) hle)
      simp [List.filter_cons, hx, hnil]

/-- In every reachable aggregate the recorded `entries_index` anchors are
non-decreasing along each history and bounded by the current entry count. -/
theorem reachable_anchors_ok {P : Type} [Perm P] {d : AppendOnlyData P}
    (h : Reachable d) :
    List.Pairwise (fun a b => Perm.entries_index a ≤ Perm.entries_index b) d.permissions ∧
    (∀ p ∈ d.permissions, Perm.entries_index p ≤ d.data.length) ∧
    List.Pairwise (fun a b : Owner => a.entries_index ≤ b.entries_index) d.owners ∧
    (∀ o ∈ d.owners, o.entries_index ≤ d.data.length) := by
  induction h with
  | init address => simp
  | step_entries entries idx hr hok ih =>
    obtain rfl := append_ok_inv hok
    refine ⟨ih.1, fun p hp => le_trans (ih.2.1 p hp) ?_, ih.2.2.1,
      fun o ho => le_trans (ih.2.2.2 o ho) ?_⟩ <;> simp
  | step_entries_unseq entries hr hok ih =>
    obtain rfl := append_unseq_ok_inv hok
    refine ⟨ih.1, fun p hp => le_trans (ih.2.1 p hp) ?_, ih.2.2.1,
      fun o ho => le_trans (ih.2.2.2 o ho) ?_⟩ <;> simp
  | step_permissions perms idx hr hok ih =>
    obtain ⟨hidx, rfl⟩ := append_permissions_ok_inv hok
    refine ⟨?_, ?_, ih.2.2.1, ih.2.2.2⟩
    · rw [List.pairwise_append]
      refine ⟨ih.1, List.pairwise_singleton _ _, ?_⟩
      intro a ha b hb
      rw [List.mem_singleton] at hb
      subst hb
      rw [hidx]
      exact ih.2.1 a ha
    · intro p hp
      rcases List.mem_append.mp hp with h1 | h1
      · exact ih.2.1 p h1
      · rw [List.mem_singleton] at h1
        subst h1
        exact le_of_eq hidx
  | step_owner ow idx hr hok ih =>
    obtain ⟨hidx, rfl⟩ := append_owner_ok_inv hok
    refine ⟨ih.1, ih.2.1, ?_, ?_⟩
    · rw [List.pairwise_append]
      refine ⟨ih.2.2.1, List.pairwise_singleton _ _, ?_⟩
      intro a ha b hb
      rw [List.mem_singleton] at hb
      subst hb
      rw [hidx]
      exact ih.2.2.2 a ha
    · intro o ho
      rcases List.mem_append.mp ho with h1 | h1
      · exact ih.2.2.2 o h1
      · rw [List.mem_singleton] at h1
        subst h1
        exact le_of_eq hidx

/-! ## Claims -/

/-- Claim C3: for every public-flavor aggregate (PubSeq or PubUnseq) in any state,
including states with no owner record and no permission snapshot, and for every
principal, the dispatcher-level `check_permission` with action `Read` returns `Ok`. -/
theorem data_public_read_always_ok (d1 d2 : AppendOnlyData PubPermissions) (pk : PublicKey) :
    Data.check_permission (Data.PubSeq d1) Action.read pk = Except.ok () ∧
    Data.check_permission (Data.PubUnseq d2) Action.read pk = Except.ok () :=
  ⟨rfl, rfl⟩

/-- Claim C7: `FromStart(i)` resolves to `i` iff `i ≤ count`, `FromEnd(i)` resolves to
`count - i` iff `i ≤ count`, anything else is unresolvable; a range resolves to the
half-open pair iff both ends resolve and resolved start ≤ resolved end. -/
theorem index_resolution (count i j s e : Nat) (start stop : Index) :
    (to_absolute_index (Index.fromStart i) count = some j ↔ i ≤ count ∧ j = i) ∧
    (to_absolute_index (Index.fromEnd i) count = some j ↔ i ≤ count ∧ j = count - i) ∧
    (to_absolute_range start stop count = some (s, e) ↔
      to_absolute_index start count = some s ∧ to_absolute_index stop count = some e ∧
      s ≤ e) := by
  refine ⟨?_, ?_, ?_⟩
  · simp only [to_absolute_index]
    split_ifs with h <;> simp [h, eq_comm]
  · simp only [to_absolute_index, checked_sub]
    split_ifs with h <;> simp [h, eq_comm]
  · unfold to_absolute_range
    cases hA : to_absolute_index start count with
    | none => simp [hA]
    | some s1 =>
      cases hB : to_absolute_index stop count with
      | none => simp [hA, hB]
      | some e1 =>
        simp only [hA, hB]
        split_ifs with h
        · constructor
          · intro heq
            obtain ⟨rfl, rfl⟩ := Prod.mk.injEq _ _ _ _ ▸ Option.some.inj heq
            exact ⟨rfl, rfl, h⟩
          · rintro ⟨hs, he, _⟩
            rw [Option.some.inj hs, Option.some.inj he]
        · constructor
          · intro heq
            exact absurd heq (by simp)
          · rintro ⟨hs, he, hle⟩
            rw [Option.some.inj hs, Option.some.inj he] at h
            exact absurd hle h

/-- Claim C6: `shell(at)` either fails with `NoSuchEntry` (unresolvable index) or
returns an aggregate with the same address, zero entries, and each history filtered
to exactly the entries whose recorded `entries_index` is at most the resolved target. -/
theorem shell_filters_histories {P : Type} [Perm P] (d : AppendOnlyData P) (idx : Index) :
    (to_absolute_index idx d.entries_index = none ∧
      d.shell idx = Except.error Error.NoSuchEntry) ∨
    (∃ t, to_absolute_index idx d.entries_index = some t ∧
      d.shell idx = Except.ok
        { address := d.address
          data := []
          permissions := d.permissions.filter fun perm => decide (Perm.entries_index perm ≤ t)
          owners := d.owners.filter fun ow => decide (ow.entries_index ≤ t) }) := by
  cases h : to_absolute_index idx d.entries_index with
  | none => exact Or.inl ⟨rfl, by simp [AppendOnlyData.shell, h]⟩
  | some t => exact Or.inr ⟨t, rfl, by simp [AppendOnlyData.shell, h]⟩

/-- Claim C1: `append_permissions(snapshot, expected_position)` and
`append_owner(record, expected_position)` succeed iff all three embedded causal
counters equal the aggregate's current entry count, owner-history length and
permission-history length; any single mismatch rejects the call with a successor
error carrying the true current value, and on success exactly the one history
grows by the given record while the rest of the aggregate is unchanged. -/
theorem append_permissions_owner_causal_check {P : Type} [Perm P]
    (d : AppendOnlyData P) (perms : P) (ow : Owner) (i j : Nat) :
    ((∃ d', d.append_permissions perms i = Except.ok d') ↔
      Perm.entries_index perms = d.entries_index ∧
      Perm.owners_index perms = d.owners_index ∧ i = d.permissions_index) ∧
    ((∃ d', d.append_owner ow j = Except.ok d') ↔
      ow.entries_index = d.entries_index ∧
      ow.permissions_index = d.permissions_index ∧ j = d.owners_index) ∧
    (Perm.entries_index perms ≠ d.entries_index ∧
        d.append_permissions perms i = Except.error (Error.InvalidSuccessor d.entries_index) ∨
      Perm.entries_index perms = d.entries_index ∧ Perm.owners_index perms ≠ d.owners_index ∧
        d.append_permissions perms i =
          Except.error (Error.InvalidOwnersSuccessor d.owners_index) ∨
      Perm.entries_index perms = d.entries_index ∧ Perm.owners_index perms = d.owners_index ∧
        i ≠ d.permissions_index ∧
        d.append_permissions perms i = Except.error (Error.InvalidSuccessor d.permissions_index) ∨
      Perm.entries_index perms = d.entries_index ∧ Perm.owners_index perms = d.owners_index ∧
        i = d.permissions_index ∧
        d.append_permissions perms i =
          Except.ok { d with permissions := d.permissions ++ [perms] }) ∧
    (ow.entries_index ≠ d.entries_index ∧
        d.append_owner ow j = Except.error (Error.InvalidSuccessor d.entries_index) ∨
      ow.entries_index = d.entries_index ∧ ow.permissions_index ≠ d.permissions_index ∧
        d.append_owner ow j = Except.error (Error.InvalidPermissionsSuccessor d.permissions_index) ∨
      ow.entries_index = d.entries_index ∧ ow.permissions_index = d.permissions_index ∧
        j ≠ d.owners_index ∧
        d.append_owner ow j = Except.error (Error.InvalidSuccessor d.owners_index) ∨
      ow.entries_index = d.entries_index ∧ ow.permissions_index = d.permissions_index ∧
        j = d.owners_index ∧
        d.append_owner ow j = Except.ok { d with owners := d.owners ++ [ow] }) := by
  by_cases h1 : Perm.entries_index perms = d.entries_index <;>
  by_cases h2 : Perm.owners_index perms = d.owners_index <;>
  by_cases h3 : i = d.permissions_index <;>
  by_cases h4 : ow.entries_index = d.entries_index <;>
  by_cases h5 : ow.permissions_index = d.permissions_index <;>
  by_cases h6 : j = d.owners_index <;>
    simp [AppendOnlyData.append_permissions, AppendOnlyData.append_owner,
      h1, h2, h3, h4, h5, h6, eq_comm]

/-- Claim C2: counted (sequential) `append(batch, expected)` succeeds iff the expected
count equals the current entry count, the batch contains no two entries with the same
key, and no batch key already exists; each failure mode returns the stated error (a
count mismatch on a duplicate-free, disjoint batch fails with `InvalidSuccessor`
carrying the current count), and only success extends the stored entry sequence. -/
theorem seq_append_check {P : Type} [Perm P] (d : AppendOnlyData P)
    (entries : List Entry) (idx : Nat) :
    ((∃ d', d.append entries idx = Except.ok d') ↔
      idx = d.data.length ∧ (entries.map Entry.key).Nodup ∧
      ∀ e ∈ entries, e.key ∉ d.data.map Entry.key) ∧
    (¬ (entries.map Entry.key).Nodup ∧
        d.append entries idx = Except.error Error.DuplicateEntryKeys ∨
      (entries.map Entry.key).Nodup ∧ (∃ e ∈ entries, e.key ∈ d.data.map Entry.key) ∧
        d.append entries idx = Except.error
          (Error.KeysExist (entries.filter fun e => decide (e.key ∈ d.data.map Entry.key))) ∨
      (entries.map Entry.key).Nodup ∧ (∀ e ∈ entries, e.key ∉ d.data.map Entry.key) ∧
        idx ≠ d.data.length ∧
        d.append entries idx = Except.error (Error.InvalidSuccessor d.data.length) ∨
      (entries.map Entry.key).Nodup ∧ (∀ e ∈ entries, e.key ∉ d.data.map Entry.key) ∧
        idx = d.data.length ∧
        d.append entries idx = Except.ok { d with data := d.data ++ entries }) := by
  by_cases h1 : (entries.map Entry.key).Nodup <;>
  by_cases h2 : ∃ e ∈ entries, ∃ a ∈ d.data, a.key = e.key <;>
  by_cases h3 : idx = d.data.length <;>
    (simp [AppendOnlyData.append, check_dup, h1, h2, h3, List.any_eq_true] <;>
      exact fun e he x hx hk => h2 ⟨e, he, x, hx, hk⟩)

/-- Claim C9: in the counted (sequential) append, duplicate detection runs before the
expected-count comparison: a batch with an intra-batch duplicate key fails with
`DuplicateEntryKeys`, and a duplicate-free batch whose keys intersect the stored keys
fails with `KeysExist`, regardless of the supplied expected count; `InvalidSuccessor`
is returned exactly for duplicate-free, disjoint batches with a count mismatch. -/
theorem seq_append_dup_checked_first {P : Type} [Perm P] (d : AppendOnlyData P)
    (entries : List Entry) (idx : Nat) :
    (d.append entries idx = Except.error Error.DuplicateEntryKeys ↔
      ¬ (entries.map Entry.key).Nodup) ∧
    ((∃ c, d.append entries idx = Except.error (Error.KeysExist c)) ↔
      (entries.map Entry.key).Nodup ∧ ∃ e ∈ entries, e.key ∈ d.data.map Entry.key) ∧
    ((∃ n, d.append entries idx = Except.error (Error.InvalidSuccessor n)) ↔
      (entries.map Entry.key).Nodup ∧ (∀ e ∈ entries, e.key ∉ d.data.map Entry.key) ∧
      idx ≠ d.data.length) := by
  by_cases h1 : (entries.map Entry.key).Nodup <;>
  by_cases h2 : ∃ e ∈ entries, ∃ a ∈ d.data, a.key = e.key <;>
  by_cases h3 : idx = d.data.length <;>
    (simp [AppendOnlyData.append, check_dup, h1, h2, h3, List.any_eq_true] <;>
      exact fun e he x hx hk => h2 ⟨e, he, x, hx, hk⟩)

/-- Claim C8: for every aggregate with a non-empty owner history and every action,
`check_permission` returns `Ok` when the requesting principal equals the latest
owner's public key, whatever the permission history holds. -/
theorem owner_bypasses_acl {P : Type} [Perm P] (d : AppendOnlyData P)
    (ow : Owner) (action : Action)
    (hlast : d.owners.getLast? = some ow) :
    d.check_permission ow.public_key action = Except.ok () := by
  unfold AppendOnlyData.check_permission
  rw [owner_fromEnd_one, hlast]
  simp

theorem owner_bypasses_acl_witness :
    AppendOnlyData.check_permission
      { address := Address.UnpubSeq 1 100, data := [],
        permissions := ([] : List UnpubPermissions),
        owners := [{ public_key := 5, entries_index := 0, permissions_index := 0 }] }
      5 Action.managePermissions = Except.ok () :=
  owner_bypasses_acl _ { public_key := 5, entries_index := 0, permissions_index := 0 }
    Action.managePermissions rfl

/-- Claim C5: on a public-flavor aggregate with at least one permission snapshot, for
a non-owner principal and an `Append` or `ManagePermissions` action, the latest
snapshot's principal-specific explicit boolean decides when present (overriding the
wildcard `Anyone` entry), otherwise the wildcard's explicit boolean decides, and if
neither resolves the result is `InvalidPermissions`. -/
theorem pub_user_over_anyone (d : AppendOnlyData PubPermissions)
    (ow : Owner) (latest : PubPermissions) (requester : PublicKey) (action : Action)
    (hown : d.owners.getLast? = some ow)
    (hreq : ow.public_key ≠ requester)
    (hperm : d.permissions.getLast? = some latest)
    (_haction : action = Action.append ∨ action = Action.managePermissions) :
    d.check_permission requester action =
      match latest.is_action_allowed_by_user (User.key requester) action with
      | some true => Except.ok ()
      | some false => Except.error Error.AccessDenied
      | none =>
        match latest.is_action_allowed_by_user User.anyone action with
        | some true => Except.ok ()
        | some false => Except.error Error.AccessDenied
        | none => Except.error Error.InvalidPermissions := by
  unfold AppendOnlyData.check_permission
  rw [owner_fromEnd_one, hown, permissions_at_fromEnd_one, hperm]
  simp only [hreq, if_false]
  show latest.is_action_allowed requester action = _
  unfold PubPermissions.is_action_allowed
  cases hu : latest.is_action_allowed_by_user (User.key requester) action with
  | none => simp [Option.orElse]
  | some b => cases b <;> simp [Option.orElse]

theorem pub_user_over_anyone_witness :
    AppendOnlyData.check_permission examplePubData 9 Action.managePermissions =
      Except.ok () :=
  (pub_user_over_anyone examplePubData exampleOwner examplePubSnapshot
    9 Action.managePermissions rfl (by decide) rfl (Or.inr rfl)).trans rfl

/-- Claim C4 counterexample: a public-flavor aggregate with an empty owner history,
queried through the dispatcher with action `Read`, returns `Ok` rather than failing
with `InvalidOwners`. -/
theorem empty_owner_public_read_ok :
    (Data.PubSeq (PubSeqAppendOnlyData.new 1 10000)).owners_index = 0 ∧
    Data.check_permission (Data.PubSeq (PubSeqAppendOnlyData.new 1 10000)) Action.read 7 =
      Except.ok () ∧
    (Except.ok () : Except Error Unit) ≠ Except.error Error.InvalidOwners :=
  ⟨rfl, rfl, fun h => Except.noConfusion h⟩

/-- Claim C4, amended: for every aggregate whose owner history is empty and every
principal, `check_permission` fails with `InvalidOwners` for every action, except
at the dispatcher level for a public-flavor variant with action `Read`, where the
flavor-independent short-circuit returns `Ok`. -/
theorem check_permission_without_owner (data : Data) (requester : PublicKey)
    (action : Action) (h : data.owners_index = 0) :
    data.check_permission action requester =
      match data, action with
      | Data.PubSeq _, Action.read => Except.ok ()
      | Data.PubUnseq _, Action.read => Except.ok ()
      | _, _ => Except.error Error.InvalidOwners := by
  have empty_case : ∀ {P : Type} [Perm P] (d : AppendOnlyData P), d.owners = [] →
      d.check_permission requester action = Except.error Error.InvalidOwners := by
    intro P _ d hnil
    unfold AppendOnlyData.check_permission AppendOnlyData.owner
    simp [hnil, to_absolute_index, checked_sub]
  cases data <;> cases action <;>
    first
      | rfl
      | · rename_i d
          exact empty_case d (List.length_eq_zero.mp h)

theorem check_permission_without_owner_witness :
    Data.check_permission (Data.UnpubSeq (UnpubSeqAppendOnlyData.new 1 10000)) Action.read 7 =
      Except.error Error.InvalidOwners :=
  (check_permission_without_owner (Data.UnpubSeq (UnpubSeqAppendOnlyData.new 1 10000))
    7 Action.read rfl).trans rfl

/-- Claim C10: in every aggregate reachable from `new(name, tag)` by the public
append operations, the `entries_index` values recorded in the permission history and
in the owner history are non-decreasing along each history and bounded by the current
entry count, so filtering a history by recorded `entries_index ≤ target` (as `shell`
does) always keeps a front segment of that history. -/
theorem reachable_anchor_monotone {P : Type} [Perm P] (d : AppendOnlyData P) (t : Nat)
    (h : Reachable d) :
    List.Pairwise (fun a b => Perm.entries_index a ≤ Perm.entries_index b) d.permissions ∧
    (∀ p ∈ d.permissions, Perm.entries_index p ≤ d.entries_index) ∧
    List.Pairwise (fun a b : Owner => a.entries_index ≤ b.entries_index) d.owners ∧
    (∀ o ∈ d.owners, o.entries_index ≤ d.entries_index) ∧
    (∃ rest, (d.permissions.filter fun p => decide (Perm.entries_index p ≤ t)) ++ rest =
      d.permissions) ∧
    (∃ rest, (d.owners.filter fun o => decide (o.entries_index ≤ t)) ++ rest =
      d.owners) := by
  obtain ⟨h1, h2, h3, h4⟩ := reachable_anchors_ok h
  exact ⟨h1, h2, h3, h4,
    monotone_filter_le_front (fun p => Perm.entries_index p) t d.permissions h1,
    monotone_filter_le_front (fun o => o.entries_index) t d.owners h3⟩

theorem reachable_anchor_monotone_witness :
    ∃ rest,
      (examplePubData.owners.filter fun o => decide (o.entries_index ≤ 0)) ++ rest =
        examplePubData.owners :=
  (reachable_anchor_monotone examplePubData 0
    (Reachable.step_permissions examplePubSnapshot 0
      (Reachable.step_owner exampleOwner 0 (Reachable.init (Address.PubSeq 1 100)) rfl)
      rfl)).2.2.2.2.2

end SafeND
